import Mathlib

/-!
Verification development for the dht-crawler repository.

The Rust sources are shallowly embedded in Lean 4:
* `src/src/routing/table.rs` — the `RoutingTable` (buckets, binary search,
  `add_node`, `split_bucket`);
* `src/src/peer/response.rs` — the transaction registry's `poll` path;
* `src/src/transport/send.rs` — the request path (register, then send);
* `src/packages/krpc_protocol/src/messages.rs` — the KRPC envelope codec
  (`Message`, `MessageType`, `Query`, `Response`, `KRPCError`) together with
  the serde semantics induced by its attributes.

Node identifiers are modelled as `Nat` (the 160-bit key space is `[0, 2^160)`,
lexicographic order on 20-byte strings coincides with numeric order), byte
strings as `List (Fin 256)`, and bencoded payloads as an inductive `BVal`
syntax tree (the byte-level bencode grammar is a bijection on well-formed
values, so decoding is modelled from the parsed tree).
-/

namespace DhtCrawler

/-! ## Routing table (src/src/routing/table.rs)

`src/src/routing/bucket.rs` and `src/src/routing/node.rs` are not among the
provided sources; `Bucket` and `Node` below are modelled from the spec.
-/

/-- Modelled from the spec: a routing-table entry (`src/src/routing/node.rs`
is not in the sources). The spec's last-seen timestamp, failed-query counter
and liveness state play no role in the claims about `add_node`, so only the
160-bit identifier is carried. -/
structure Node where
  id : Nat
deriving DecidableEq, Repr

/-- Bucket capacity K. The spec: "a bounded set (capacity K, conventionally 8)". -/
def bucketK : Nat := 8

/-- Modelled from the spec: a k-bucket (`src/src/routing/bucket.rs` is not in
the sources): a bounded set of entries (capacity `bucketK`) together with a
half-open key interval `[start, end_)`. -/
structure Bucket where
  start : Nat
  end_ : Nat
  nodes : List Node
deriving DecidableEq, Repr

instance : Inhabited Bucket := ⟨⟨0, 0, []⟩⟩

/-- Modelled from the spec: the initial bucket covers the whole 160-bit space. -/
def Bucket.initialBucket : Bucket := ⟨0, 2 ^ 160, []⟩

/-- Modelled from the spec: a bucket is full when it holds K entries. -/
def Bucket.isFull (b : Bucket) : Bool := decide (bucketK ≤ b.nodes.length)

/-- `Bucket::could_hold_node`: whether `id` lies in the bucket's interval. -/
def Bucket.couldHoldNode (b : Bucket) (id : Nat) : Bool :=
  decide (b.start ≤ id ∧ id < b.end_)

/-- Modelled from the spec: bucket-level insert — "If B has room, insert". A
full bucket is left unchanged. -/
def Bucket.addNode (b : Bucket) (n : Node) : Bucket :=
  if b.nodes.length < bucketK then { b with nodes := b.nodes ++ [n] } else b

/-- Modelled from the spec: "a bucket `[start, end)` splits at
`mid = start + (end - start)/2`, producing `[start, mid)` and `[mid, end)`";
existing entries are redistributed by which half their identifier falls in.
The first component replaces the split bucket, the second is the returned
next bucket. -/
def Bucket.split (b : Bucket) : Bucket × Bucket :=
  let mid := b.start + (b.end_ - b.start) / 2
  (⟨b.start, mid, b.nodes.filter (fun n => decide (n.id < mid))⟩,
   ⟨mid, b.end_, b.nodes.filter (fun n => decide (mid ≤ n.id))⟩)

/-- `RoutingTable` from `table.rs`: the local `id` and the ordered bucket list. -/
structure RoutingTable where
  id : Nat
  buckets : List Bucket
deriving DecidableEq, Repr

/-- `RoutingTable::new`: a single initial bucket. -/
def RoutingTable.new (id : Nat) : RoutingTable :=
  ⟨id, [Bucket.initialBucket]⟩

/-- The comparator passed to `binary_search_by` in `get_bucket_idx`:
`Equal` when the bucket could hold the id, otherwise `bucket.start.cmp(id)`. -/
def bucketCmp (b : Bucket) (id : Nat) : Ordering :=
  if b.couldHoldNode id then .eq else compare b.start id

/-- Rust's `slice::binary_search_by` loop. `left`/`right` delimit the search
window; the decreasing window size doubles as structural fuel (each iteration
strictly shrinks the window, so fuel `right - left` is never exhausted; both
exhaustion and an empty window model the `Err` outcome, i.e. `none`). -/
def binSearchGo (bs : List Bucket) (id : Nat) : Nat → Nat → Nat → Option Nat
  | 0, _, _ => none
  | fuel + 1, left, right =>
    if left < right then
      match bucketCmp (bs.getD (left + (right - left) / 2) default) id with
      | .lt => binSearchGo bs id fuel (left + (right - left) / 2 + 1) right
      | .gt => binSearchGo bs id fuel left (left + (right - left) / 2)
      | .eq => some (left + (right - left) / 2)
    else none

/-- `RoutingTable::get_bucket_idx`: binary search over the bucket list.
`none` corresponds to the `Err` case, where the Rust code panics with
"No bucket was found for NodeID.". -/
def RoutingTable.getBucketIdx (t : RoutingTable) (id : Nat) : Option Nat :=
  binSearchGo t.buckets id t.buckets.length 0 t.buckets.length

/-- `RoutingTable::split_bucket`: replace the bucket at `idx` by its low half
and insert the high half right after it; returns the two indices. -/
def RoutingTable.splitBucket (t : RoutingTable) (idx : Nat) :
    RoutingTable × Nat × Nat :=
  let b := t.buckets.getD idx default
  let lowHigh := b.split
  ({ t with
     buckets :=
       t.buckets.take idx ++ lowHigh.1 :: lowHigh.2 :: t.buckets.drop (idx + 1) },
   idx, idx + 1)

/-- Helper for `&mut self.buckets[i].add_node(node)`. -/
def RoutingTable.bucketAddAt (t : RoutingTable) (i : Nat) (n : Node) :
    RoutingTable :=
  { t with buckets := t.buckets.set i ((t.buckets.getD i default).addNode n) }

/-- `RoutingTable::add_node`, line by line: find the bucket for the node's id;
if it is full and (per the code) `could_hold_node(&node.id)` fails, return;
otherwise split and pick whichever half could hold the node; finally insert at
the bucket level. The `none` branch models the `expect` panic (unreachable,
see the C10 theorem). -/
def RoutingTable.addNode (t : RoutingTable) (node : Node) : RoutingTable :=
  match t.getBucketIdx node.id with
  | none => t
  | some bucketIdx =>
    if (t.buckets.getD bucketIdx default).isFull then
      if !((t.buckets.getD bucketIdx default).couldHoldNode node.id) then t
      else
        let s := t.splitBucket bucketIdx
        let targetIdx :=
          if (s.1.buckets.getD s.2.1 default).couldHoldNode node.id then s.2.1
          else s.2.2
        s.1.bucketAddAt targetIdx node
    else t.bucketAddAt bucketIdx node

/-- Whether a bucket holds an entry with the given identifier. -/
def Bucket.containsId (b : Bucket) (id : Nat) : Bool :=
  b.nodes.any (fun n => n.id == id)

/-! ### The ordered-partition invariant of the bucket list -/

/-- `covers lo bs hi`: the buckets `bs`, in order, tile the half-open interval
`[lo, hi)` — each bucket starts where the previous one ended and has a
non-negative extent. -/
def covers : Nat → List Bucket → Nat → Prop
  | lo, [], hi => lo = hi
  | lo, b :: rest, hi => b.start = lo ∧ lo ≤ b.end_ ∧ covers b.end_ rest hi

lemma covers_start_le_end :
    ∀ (bs : List Bucket) (lo hi : Nat), covers lo bs hi →
      ∀ i, i < bs.length → (bs.getD i default).start ≤ (bs.getD i default).end_ := by
  intro bs
  induction bs with
  | nil => intro lo hi _ i hi'; simp at hi'
  | cons b rest ih =>
    intro lo hi h i hi'
    obtain ⟨h1, h2, h3⟩ := h
    cases i with
    | zero => simp only [List.getD_cons_zero]; omega
    | succ i =>
      simp only [List.getD_cons_succ]
      exact ih _ _ h3 i (by simpa using hi')

lemma covers_adj :
    ∀ (bs : List Bucket) (lo hi : Nat), covers lo bs hi →
      ∀ i, i + 1 < bs.length →
        (bs.getD i default).end_ = (bs.getD (i + 1) default).start := by
  intro bs
  induction bs with
  | nil => intro lo hi _ i hi'; simp at hi'
  | cons b rest ih =>
    intro lo hi h i hi'
    obtain ⟨h1, h2, h3⟩ := h
    cases i with
    | zero =>
      cases rest with
      | nil => simp at hi'
      | cons c rest' =>
        simp only [List.getD_cons_zero, List.getD_cons_succ]
        exact h3.1.symm
    | succ i =>
      simp only [List.getD_cons_succ]
      exact ih _ _ h3 i (by simpa using hi')

lemma covers_end_le_start (bs : List Bucket) (lo hi : Nat) (h : covers lo bs hi) :
    ∀ j i, i < j → j < bs.length →
      (bs.getD i default).end_ ≤ (bs.getD j default).start := by
  intro j
  induction j with
  | zero => intro i h1 _; omega
  | succ k ih =>
    intro i h1 h2
    rcases Nat.lt_succ_iff_lt_or_eq.mp h1 with hik | heq
    · have hke := ih i hik (by omega)
      have hse := covers_start_le_end bs lo hi h k (by omega)
      have hadj := covers_adj bs lo hi h k h2
      omega
    · subst heq
      have hadj := covers_adj bs lo hi h i h2
      omega

lemma covers_exists_containing :
    ∀ (bs : List Bucket) (lo hi id : Nat), covers lo bs hi → lo ≤ id → id < hi →
      ∃ j, j < bs.length ∧ (bs.getD j default).couldHoldNode id = true := by
  intro bs
  induction bs with
  | nil =>
    intro lo hi id h h1 h2
    have : lo = hi := h
    omega
  | cons b rest ih =>
    intro lo hi id h h1 h2
    obtain ⟨hs, hle, hcov⟩ := h
    by_cases hid : id < b.end_
    · refine ⟨0, by simp, ?_⟩
      simp only [List.getD_cons_zero, Bucket.couldHoldNode, decide_eq_true_eq]
      omega
    · obtain ⟨j, hj, hcj⟩ := ih b.end_ hi id hcov (by omega) h2
      exact ⟨j + 1, by simpa using hj, by simpa using hcj⟩

lemma covers_ne_nil {bs : List Bucket} {lo hi : Nat} (h : covers lo bs hi)
    (hne : lo ≠ hi) : bs ≠ [] := by
  cases bs with
  | nil => exact absurd h hne
  | cons b rest => simp

lemma covers_headD {bs : List Bucket} {lo hi : Nat} (h : covers lo bs hi)
    (hne : bs ≠ []) : (bs.headD default).start = lo := by
  cases bs with
  | nil => exact absurd rfl hne
  | cons b rest => exact h.1

lemma covers_getLastD :
    ∀ (bs : List Bucket) (lo hi : Nat), covers lo bs hi → bs ≠ [] →
      (bs.getLastD default).end_ = hi := by
  intro bs
  induction bs with
  | nil => intro lo hi _ hne; exact absurd rfl hne
  | cons b rest ih =>
    intro lo hi h _
    cases rest with
    | nil =>
      have : b.end_ = hi := h.2.2
      simpa [List.getLastD] using this
    | cons c rest' =>
      have := ih b.end_ hi h.2.2 (by simp)
      simpa [List.getLastD] using this

/-! ### Binary search: bounds and totality under the invariant -/

lemma binSearchGo_bound (bs : List Bucket) (id : Nat) :
    ∀ (fuel left right j : Nat), right ≤ bs.length →
      binSearchGo bs id fuel left right = some j → j < bs.length := by
  intro fuel
  induction fuel with
  | zero => intro left right j _ h2; simp [binSearchGo] at h2
  | succ fuel ih =>
    intro left right j h1 h2
    rw [binSearchGo] at h2
    by_cases hlr : left < right
    · rw [if_pos hlr] at h2
      cases hcm : bucketCmp (bs.getD (left + (right - left) / 2) default) id with
      | lt =>
        rw [hcm] at h2
        exact ih _ _ _ h1 h2
      | gt =>
        rw [hcm] at h2
        exact ih _ _ _ (by omega) h2
      | eq =>
        rw [hcm] at h2
        have : left + (right - left) / 2 = j := by simpa using h2
        omega
    · rw [if_neg hlr] at h2
      simp at h2

lemma binSearchGo_isSome (bs : List Bucket) (id : Nat)
    (hadj : ∀ i j, i < j → j < bs.length →
      (bs.getD i default).end_ ≤ (bs.getD j default).start)
    (hse : ∀ i, i < bs.length →
      (bs.getD i default).start ≤ (bs.getD i default).end_) :
    ∀ (fuel left right j : Nat), right - left ≤ fuel → right ≤ bs.length →
      left ≤ j → j < right → (bs.getD j default).couldHoldNode id = true →
      (binSearchGo bs id fuel left right).isSome = true := by
  intro fuel
  induction fuel with
  | zero => intro left right j h1 _ h3 h4 _; omega
  | succ fuel ih =>
    intro left right j h1 h2 h3 h4 h5
    have hlr : left < right := by omega
    rw [binSearchGo, if_pos hlr]
    have hmidlt : left + (right - left) / 2 < right := by omega
    cases hcm : bucketCmp (bs.getD (left + (right - left) / 2) default) id with
    | lt =>
      -- the comparator said Less: the mid bucket cannot hold `id` and its
      -- start is below `id`, so the true index lies strictly to the right
      have hch : (bs.getD (left + (right - left) / 2) default).couldHoldNode id = false := by
        by_contra hc
        have hc' : (bs.getD (left + (right - left) / 2) default).couldHoldNode id = true := by
          revert hc; cases (bs.getD (left + (right - left) / 2) default).couldHoldNode id <;> simp
        rw [bucketCmp, if_pos hc'] at hcm
        cases hcm
      have hstlt : (bs.getD (left + (right - left) / 2) default).start < id := by
        rw [bucketCmp, hch] at hcm
        simp only [Bool.false_eq_true, if_false] at hcm
        exact Nat.compare_eq_lt.mp hcm
      have hjgt : left + (right - left) / 2 < j := by
        rcases Nat.lt_trichotomy j (left + (right - left) / 2) with hj | hj | hj
        · exfalso
          have h5' := h5
          simp only [Bucket.couldHoldNode, decide_eq_true_eq] at h5'
          have := hadj j (left + (right - left) / 2) hj (by omega)
          omega
        · exfalso; rw [hj] at h5; rw [h5] at hch; cases hch
        · exact hj
      exact ih (left + (right - left) / 2 + 1) right j (by omega) h2 (by omega) h4 h5
    | gt =>
      have hch : (bs.getD (left + (right - left) / 2) default).couldHoldNode id = false := by
        by_contra hc
        have hc' : (bs.getD (left + (right - left) / 2) default).couldHoldNode id = true := by
          revert hc; cases (bs.getD (left + (right - left) / 2) default).couldHoldNode id <;> simp
        rw [bucketCmp, if_pos hc'] at hcm
        cases hcm
      have hstgt : id < (bs.getD (left + (right - left) / 2) default).start := by
        rw [bucketCmp, hch] at hcm
        simp only [Bool.false_eq_true, if_false] at hcm
        exact Nat.compare_eq_gt.mp hcm
      have hjlt : j < left + (right - left) / 2 := by
        rcases Nat.lt_trichotomy j (left + (right - left) / 2) with hj | hj | hj
        · exact hj
        · exfalso; rw [hj] at h5; rw [h5] at hch; cases hch
        · exfalso
          have h5' := h5
          simp only [Bucket.couldHoldNode, decide_eq_true_eq] at h5'
          have h6 := hadj (left + (right - left) / 2) j hj (by omega)
          have h7 := hse (left + (right - left) / 2) (by omega)
          omega
      exact ih left (left + (right - left) / 2) j (by omega) (by omega) h3 hjlt h5
    | eq => rfl

/-! ### Preservation of the invariant by `add_node` -/

lemma Bucket.addNode_start (b : Bucket) (n : Node) : (b.addNode n).start = b.start := by
  unfold Bucket.addNode; split <;> rfl

lemma Bucket.addNode_end (b : Bucket) (n : Node) : (b.addNode n).end_ = b.end_ := by
  unfold Bucket.addNode; split <;> rfl

lemma covers_set :
    ∀ (bs : List Bucket) (lo hi i : Nat) (b' : Bucket), covers lo bs hi →
      b'.start = (bs.getD i default).start → b'.end_ = (bs.getD i default).end_ →
      covers lo (bs.set i b') hi := by
  intro bs
  induction bs with
  | nil => intro lo hi i b' h _ _; simpa using h
  | cons b rest ih =>
    intro lo hi i b' h hs he
    obtain ⟨h1, h2, h3⟩ := h
    cases i with
    | zero =>
      simp only [List.getD_cons_zero] at hs he
      show covers lo (b' :: rest) hi
      refine ⟨by rw [hs, h1], by rw [he]; exact h2, by rw [he]; exact h3⟩
    | succ i =>
      simp only [List.getD_cons_succ] at hs he
      show covers lo (b :: rest.set i b') hi
      exact ⟨h1, h2, ih _ _ _ _ h3 hs he⟩

lemma covers_replaceSplit :
    ∀ (bs : List Bucket) (lo hi idx : Nat), idx < bs.length → covers lo bs hi →
      covers lo
        (bs.take idx ++
          ((bs.getD idx default).split).1 :: ((bs.getD idx default).split).2 ::
            bs.drop (idx + 1)) hi := by
  intro bs
  induction bs with
  | nil => intro lo hi idx h; simp at h
  | cons b rest ih =>
    intro lo hi idx hidx h
    obtain ⟨h1, h2, h3⟩ := h
    cases idx with
    | zero =>
      simp only [List.take_zero, List.getD_cons_zero, List.drop_succ_cons,
        List.drop_zero, List.nil_append]
      show covers lo (b.split.1 :: b.split.2 :: rest) hi
      have hmid2 : b.start + (b.end_ - b.start) / 2 ≤ b.end_ := by omega
      refine ⟨?_, ?_, ?_, ?_, ?_⟩
      · show b.start = lo
        exact h1
      · show lo ≤ b.start + (b.end_ - b.start) / 2
        omega
      · rfl
      · show b.start + (b.end_ - b.start) / 2 ≤ b.end_
        exact hmid2
      · exact h3
    | succ idx =>
      simp only [List.take_succ_cons, List.getD_cons_succ, List.drop_succ_cons,
        List.cons_append]
      exact ⟨h1, h2, ih _ _ _ (by simpa using hidx) h3⟩

lemma covers_bucketAddAt (t : RoutingTable) (i : Nat) (n : Node)
    (h : covers 0 t.buckets (2 ^ 160)) :
    covers 0 (t.bucketAddAt i n).buckets (2 ^ 160) := by
  exact covers_set _ _ _ _ _ h (Bucket.addNode_start _ _) (Bucket.addNode_end _ _)

lemma covers_addNode (t : RoutingTable) (n : Node)
    (h : covers 0 t.buckets (2 ^ 160)) :
    covers 0 (t.addNode n).buckets (2 ^ 160) := by
  unfold RoutingTable.addNode
  cases hidx : t.getBucketIdx n.id with
  | none => exact h
  | some idx =>
    have hlen : idx < t.buckets.length :=
      binSearchGo_bound _ _ _ _ _ _ (le_refl _) hidx
    dsimp only
    split
    · split
      · exact h
      · apply covers_bucketAddAt
        show covers 0 (t.splitBucket idx).1.buckets (2 ^ 160)
        exact covers_replaceSplit _ _ _ _ hlen h
    · exact covers_bucketAddAt _ _ _ h

lemma covers_new (L : Nat) : covers 0 (RoutingTable.new L).buckets (2 ^ 160) :=
  ⟨rfl, Nat.zero_le _, rfl⟩

lemma covers_foldl (ns : List Node) :
    ∀ t : RoutingTable, covers 0 t.buckets (2 ^ 160) →
      covers 0 (ns.foldl RoutingTable.addNode t).buckets (2 ^ 160) := by
  induction ns with
  | nil => intro t h; exact h
  | cons n ns ih => intro t h; exact ih _ (covers_addNode t n h)

/-- The table obtained from `new(L)` by a sequence of `add_node` calls. -/
def tableOf (L : Nat) (ns : List Node) : RoutingTable :=
  ns.foldl RoutingTable.addNode (RoutingTable.new L)

/-! ### Concrete routing-table scenario

Local id `0`; nine insertions with ids `2^159 .. 2^159 + 8`. The first eight
fill the initial bucket; the ninth forces a split (legitimate, because the
initial bucket spans the local id), leaving two buckets — the high one,
`[2^159, 2^160)`, full and *not* containing the local id `0`. -/

def nodes9 : List Node := (List.range 9).map (fun k => Node.mk (2 ^ 159 + k))

def tableC2 : RoutingTable := tableOf 0 nodes9

def nodeC2 : Node := ⟨2 ^ 159 + 9⟩

/-- The two-bucket table the nine insertions produce, written out: the low
half `[0, 2^159)` is empty, the high half `[2^159, 2^160)` holds the eight
first nodes and is full. -/
def tableC2lit : RoutingTable :=
  ⟨0, [⟨0, 2 ^ 159, []⟩,
       ⟨2 ^ 159, 2 ^ 160, (List.range 8).map (fun k => Node.mk (2 ^ 159 + k))⟩]⟩

theorem tableC2_eq : tableC2 = tableC2lit := by decide

/-- C2: evaluation of the code at the failing input. `tableC2`'s second
bucket is full and does not contain the local id `0`, so per the spec adding
`nodeC2` (which falls into that bucket) must leave the table unchanged; the
code instead splits the bucket (2 buckets become 3) because `add_node` tests
`could_hold_node(&node.id)` — vacuously true for the bucket that was just
located by `node.id` — instead of the local id. -/
theorem c2_full_foreign_bucket_is_split :
    tableC2.buckets.length = 2 ∧
    (tableC2.buckets.getD 1 default).isFull = true ∧
    (tableC2.buckets.getD 1 default).couldHoldNode tableC2.id = false ∧
    (tableC2.buckets.getD 1 default).couldHoldNode nodeC2.id = true ∧
    (tableC2.addNode nodeC2).buckets.length = 3 ∧
    tableC2.addNode nodeC2 ≠ tableC2 := by
  rw [tableC2_eq]
  exact ⟨by decide, by decide, by decide, by decide, by decide, by decide⟩

/-- C7 counterexample: inserting a node whose identifier equals the local id
`5` into the fresh table is *not* rejected — the table changes and the local
id appears in bucket 0. `add_node` has no check against the local id. -/
theorem c7_local_id_is_inserted :
    (RoutingTable.new 5).addNode (Node.mk 5) ≠ RoutingTable.new 5 ∧
    (((RoutingTable.new 5).addNode (Node.mk 5)).buckets.getD 0 default).containsId 5
      = true := by decide

/-- C7 amended: `add_node` does not special-case the local identifier; a node
whose id equals the local id `L` is inserted like any other node whenever its
bucket has room, so the fresh table ends up holding `L` itself. -/
theorem c7_amended_local_id_inserted (L : Nat) (h : L < 2 ^ 160) :
    (((RoutingTable.new L).addNode (Node.mk L)).buckets.getD 0 default).containsId L
      = true := by
  have hch : Bucket.initialBucket.couldHoldNode L = true := by
    simp only [Bucket.initialBucket, Bucket.couldHoldNode, decide_eq_true_eq]
    exact ⟨Nat.zero_le L, h⟩
  have hcm : bucketCmp Bucket.initialBucket L = Ordering.eq := by
    rw [bucketCmp, if_pos hch]
  have hidx : (RoutingTable.new L).getBucketIdx L = some 0 := by
    simp [RoutingTable.getBucketIdx, RoutingTable.new, binSearchGo, hcm]
  have hfull : ((RoutingTable.new L).buckets.getD 0 default).isFull = false := rfl
  simp only [RoutingTable.addNode, Node.mk.injEq, hidx, hfull,
    Bool.false_eq_true, if_false]
  simp [RoutingTable.bucketAddAt, RoutingTable.new, Bucket.addNode,
    Bucket.initialBucket, bucketK, Bucket.containsId]

/-- C7 amended, witness at `L = 5`. -/
theorem c7_amended_witness :
    (5 : Nat) < 2 ^ 160 ∧
    (((RoutingTable.new 5).addNode (Node.mk 5)).buckets.getD 0 default).containsId 5
      = true :=
  ⟨by decide, c7_amended_local_id_inserted 5 (by decide)⟩

/-- C6: after any sequence of insertions starting from `new(L)`, the bucket
list is an ordered partition of `[0, 2^160)`: it is non-empty, the first
bucket starts at 0, the last ends at `2^160`, adjacent buckets meet with no
gap, and the (half-open) intervals of distinct buckets do not overlap. -/
theorem c6_buckets_partition (L : Nat) (ns : List Node) :
    (tableOf L ns).buckets ≠ [] ∧
    ((tableOf L ns).buckets.headD default).start = 0 ∧
    ((tableOf L ns).buckets.getLastD default).end_ = 2 ^ 160 ∧
    (∀ i, i + 1 < (tableOf L ns).buckets.length →
      ((tableOf L ns).buckets.getD i default).end_ =
        ((tableOf L ns).buckets.getD (i + 1) default).start) ∧
    (∀ i j, i < j → j < (tableOf L ns).buckets.length →
      ((tableOf L ns).buckets.getD i default).end_ ≤
        ((tableOf L ns).buckets.getD j default).start) := by
  have hc : covers 0 (tableOf L ns).buckets (2 ^ 160) :=
    covers_foldl ns _ (covers_new L)
  have hne : (tableOf L ns).buckets ≠ [] :=
    covers_ne_nil hc (by positivity : (0 : ℕ) < 2 ^ 160).ne
  refine ⟨hne, covers_headD hc hne, covers_getLastD _ _ _ hc hne,
    covers_adj _ _ _ hc, ?_⟩
  intro i j hij hj
  exact covers_end_le_start _ _ _ hc j i hij hj

/-- C6, witness: in the two-bucket table of the concrete scenario, bucket 0
meets bucket 1 exactly, and the first bucket starts at 0. -/
theorem c6_buckets_partition_witness :
    ((tableOf 0 nodes9).buckets.getD 0 default).end_ =
      ((tableOf 0 nodes9).buckets.getD 1 default).start ∧
    ((tableOf 0 nodes9).buckets.headD default).start = 0 :=
  ⟨(c6_buckets_partition 0 nodes9).2.2.2.1 0 (by decide),
   (c6_buckets_partition 0 nodes9).2.1⟩

/-- C10: for every table reachable from `new(L)` by `add_node` calls and
every identifier in the 160-bit key space, `get_bucket_idx`'s binary search
succeeds — the `Err` branch (and hence the `expect` panic
"No bucket was found for NodeID.") is unreachable. -/
theorem c10_bucket_search_never_fails (L : Nat) (ns : List Node) (id : Nat)
    (h : id < 2 ^ 160) : ((tableOf L ns).getBucketIdx id).isSome = true := by
  have hc : covers 0 (tableOf L ns).buckets (2 ^ 160) :=
    covers_foldl ns _ (covers_new L)
  obtain ⟨j, hj, hcj⟩ :=
    covers_exists_containing _ _ _ id hc (Nat.zero_le id) h
  unfold RoutingTable.getBucketIdx
  exact binSearchGo_isSome _ id
    (fun i j h1 h2 => covers_end_le_start _ _ _ hc j i h1 h2)
    (covers_start_le_end _ _ _ hc)
    _ 0 _ j (by omega) (le_refl _) (Nat.zero_le j) hj hcj

/-- C10, witness at a concrete table and id. -/
theorem c10_bucket_search_witness :
    (5 : Nat) < 2 ^ 160 ∧ ((tableOf 0 []).getBucketIdx 5).isSome = true :=
  ⟨by decide, c10_bucket_search_never_fails 0 [] 5 (by decide)⟩

/-! ## Transaction registry (src/src/peer/response.rs, src/src/transport/send.rs)

The registry is generic in the envelope type (`α` stands for
`proto::Envelope`); task handles (`futures` wakers) are opaque and modelled
as `Nat`. The `HashMap<TransactionId, TxState>` behind the mutex is modelled
as an association list with `remove`/`insert` as in the code. -/

/-- `TxState` from `peer/inbound.rs` (not among the sources; modelled from
the spec's transaction entry): `AwaitingResponse` with an optionally
installed task handle, or `GotResponse` with the arrived envelope. -/
inductive TxState (α : Type) where
  | awaitingResponse (task : Option Nat)
  | gotResponse (response : α)
deriving DecidableEq, Repr

/-- The in-flight transaction map. -/
def TransactionMap (α : Type) : Type := List (Nat × TxState α)

instance {α : Type} [DecidableEq α] : DecidableEq (TransactionMap α) :=
  inferInstanceAs (DecidableEq (List (Nat × TxState α)))

/-- `HashMap` lookup. -/
def txLookup {α : Type} : TransactionMap α → Nat → Option (TxState α)
  | [], _ => none
  | (k, st) :: rest, tid => if k = tid then some st else txLookup rest tid

/-- `HashMap::remove` (the removed value, when any, is what `txLookup`
returns). -/
def txRemove {α : Type} (m : TransactionMap α) (tid : Nat) : TransactionMap α :=
  m.filter (fun p => p.1 != tid)

/-- `HashMap::insert` for a key known to be absent (the code inserts only
right after removing the same key, or after a failed lookup). -/
def txInsert {α : Type} (m : TransactionMap α) (tid : Nat) (st : TxState α) :
    TransactionMap α :=
  (tid, st) :: m

/-- Outcome of one `ResponseFuture::poll` call: `Ok(Async::Ready)`,
`Ok(Async::NotReady)`, or the two error kinds it can produce. -/
inductive PollOutcome (α : Type) where
  | ready (response : α)
  | notReady
  | lockPoisoned
  | transactionNotFound
deriving DecidableEq, Repr

/-- The `Arc<Mutex<TransactionMap>>`: the map together with the mutex's
poisoned flag. -/
structure TransactionsMutex (α : Type) where
  poisoned : Bool
  map : TransactionMap α

instance {α : Type} [DecidableEq α] : DecidableEq (TransactionsMutex α) := by
  intro a b
  cases a; cases b
  exact decidable_of_iff _ (Iff.of_eq (TransactionsMutex.mk.injEq _ _ _ _)).symm

/-- `ResponseFuture` (peer/response.rs): the transaction id it waits on (the
shared registry is passed explicitly to `poll`). -/
structure ResponseFuture (α : Type) where
  transaction_id : Nat
deriving DecidableEq, Repr

/-- `ResponseFuture::poll`, line by line: lock (fails with `LockPoisoned` on
a poisoned mutex, leaving the registry as is), remove the entry for the
transaction id, then: no entry → `TransactionNotFound`; awaiting with an
installed task → re-insert that same state and report not-ready; awaiting
with no task → insert the current task and report not-ready; got response →
return it (the entry stays removed). -/
def ResponseFuture.poll {α : Type} (f : ResponseFuture α)
    (reg : TransactionsMutex α) (currentTask : Nat) :
    PollOutcome α × TransactionsMutex α :=
  if reg.poisoned then (.lockPoisoned, reg)
  else
    match txLookup reg.map f.transaction_id with
    | none => (.transactionNotFound, ⟨false, txRemove reg.map f.transaction_id⟩)
    | some (.awaitingResponse (some t)) =>
      (.notReady,
       ⟨false, txInsert (txRemove reg.map f.transaction_id) f.transaction_id
          (.awaitingResponse (some t))⟩)
    | some (.awaitingResponse none) =>
      (.notReady,
       ⟨false, txInsert (txRemove reg.map f.transaction_id) f.transaction_id
          (.awaitingResponse (some currentTask))⟩)
    | some (.gotResponse r) =>
      (.ready r, ⟨false, txRemove reg.map f.transaction_id⟩)

/-- C8: on a poisoned registry lock, `poll` resolves with `LockPoisoned` —
no panic, no other outcome — and does not touch the registry. -/
theorem c8_poisoned_lock_fails_with_lockPoisoned {α : Type}
    (f : ResponseFuture α) (reg : TransactionsMutex α) (task : Nat)
    (h : reg.poisoned = true) :
    f.poll reg task = (.lockPoisoned, reg) := by
  simp [ResponseFuture.poll, h]

/-- C8, witness at a concrete poisoned registry. -/
theorem c8_poisoned_lock_witness :
    (TransactionsMutex.mk true [(7, TxState.gotResponse 42)] :
        TransactionsMutex Nat).poisoned = true ∧
    ResponseFuture.poll (α := Nat) ⟨7⟩ ⟨true, [(7, TxState.gotResponse 42)]⟩ 0 =
      (.lockPoisoned, ⟨true, [(7, TxState.gotResponse 42)]⟩) :=
  ⟨rfl, c8_poisoned_lock_fails_with_lockPoisoned ⟨7⟩ ⟨true, [(7, TxState.gotResponse 42)]⟩ 0 rfl⟩

/-- Concrete registry for the C5 counterexample: transaction 7 awaiting with
task handle 1 already installed. -/
def regC5 : TransactionsMutex Nat := ⟨false, [(7, .awaitingResponse (some 1))]⟩

/-- C5 counterexample: polling transaction 7 with *current* task 2 reports
pending but re-inserts the old stored task 1 unchanged — it does not replace
the stored waker with the current one as the claim states (`poll` matches
`AwaitingResponse { task: Some(..) }` and re-inserts the same state). -/
theorem c5_poll_keeps_old_waker :
    (ResponseFuture.poll (α := Nat) ⟨7⟩ regC5 2).1 = .notReady ∧
    (ResponseFuture.poll (α := Nat) ⟨7⟩ regC5 2).2.map =
      [(7, TxState.awaitingResponse (some 1))] ∧
    TxState.awaitingResponse (α := Nat) (some 1) ≠
      TxState.awaitingResponse (some 2) :=
  ⟨by decide, by decide, by decide⟩

/-- C5 amended: `poll(tid, task)` behaves as the claim states for the
`Completed`, `Awaiting`-without-waker and missing-entry cases, but when the
entry is `Awaiting` with a stored waker it keeps the stored waker (only when
no waker is installed does it store the current one). -/
theorem c5_poll_cases {α : Type} (f : ResponseFuture α)
    (m : TransactionMap α) (task : Nat) :
    (txLookup m f.transaction_id = none →
      f.poll ⟨false, m⟩ task =
        (.transactionNotFound, ⟨false, txRemove m f.transaction_id⟩)) ∧
    (∀ r, txLookup m f.transaction_id = some (.gotResponse r) →
      f.poll ⟨false, m⟩ task = (.ready r, ⟨false, txRemove m f.transaction_id⟩)) ∧
    (∀ t, txLookup m f.transaction_id = some (.awaitingResponse (some t)) →
      f.poll ⟨false, m⟩ task =
        (.notReady, ⟨false, txInsert (txRemove m f.transaction_id)
          f.transaction_id (.awaitingResponse (some t))⟩)) ∧
    (txLookup m f.transaction_id = some (.awaitingResponse none) →
      f.poll ⟨false, m⟩ task =
        (.notReady, ⟨false, txInsert (txRemove m f.transaction_id)
          f.transaction_id (.awaitingResponse (some task))⟩)) := by
  refine ⟨fun h => ?_, fun r h => ?_, fun t h => ?_, fun h => ?_⟩ <;>
    simp [ResponseFuture.poll, h]

/-- C5 amended, witness: the `Completed` case at a concrete registry. -/
theorem c5_poll_cases_witness :
    txLookup [(3, TxState.gotResponse 9)] (3 : Nat) =
      some (TxState.gotResponse 9) ∧
    ResponseFuture.poll (α := Nat) ⟨3⟩ ⟨false, [(3, TxState.gotResponse 9)]⟩ 0 =
      (.ready 9, ⟨false, txRemove [(3, TxState.gotResponse 9)] 3⟩) :=
  ⟨by decide, (c5_poll_cases ⟨3⟩ [(3, TxState.gotResponse 9)] 0).2.1 9 (by decide)⟩

/-! ### Request path: registration and the send -/

/-- The two externally visible actions of `SendTransport::request`. -/
inductive EngineEvent where
  | registerTx (tid : Nat)
  | sendDatagram (tid : Nat)
deriving DecidableEq, Repr

/-- Modelled from the spec: the registration performed synchronously by
`ResponseFuture::wait_for_tx` (`src/src/transport/response.rs` is not among
the sources): register a fresh `Awaiting { waker: None }` entry for `tid`,
failing when `tid` is already present (`DuplicateTransaction`). -/
def addTransaction {α : Type} (m : TransactionMap α) (tid : Nat) :
    Option (TransactionMap α) :=
  if (txLookup m tid).isSome then none
  else some (txInsert m tid (.awaitingResponse none))

/-- Modelled from the spec: `wait_for_tx` acquires the registry mutex —
failing with `LockPoisoned` when it is poisoned — and registers the
transaction. `none` stands for either failure (`LockPoisoned` or
`DuplicateTransaction`); on failure the registry is unchanged. -/
def waitForTxRegister {α : Type} (reg : TransactionsMutex α) (tid : Nat) :
    Option (TransactionsMutex α) :=
  if reg.poisoned then none
  else (addTransaction reg.map tid).map (fun m => ⟨false, m⟩)

/-- `SendTransport::request` as a trace of (event, registry contents when the
event happens). The body first evaluates
`ResponseFuture::wait_for_tx(transaction_id, ...)` — registering the
transaction when it can — and then calls the synchronous `send_request`
unconditionally: the registration `Result` is only consulted afterwards, in
the future chain built from `and_then`, so the datagram is handed to the
socket even when registration failed (duplicate id or poisoned lock), with
the registry unchanged. -/
def requestTrace {α : Type} (reg : TransactionsMutex α) (tid : Nat) :
    List (EngineEvent × TransactionsMutex α) :=
  match waitForTxRegister reg tid with
  | none => [(.sendDatagram tid, reg)]
  | some reg' => [(.registerTx tid, reg'), (.sendDatagram tid, reg')]

/-- C3 counterexample: with a poisoned registry lock, `wait_for_tx` fails
but `send_request` still runs — the request's only event is a send, with no
registration event before it, and the registry does not contain the
transaction id when the bytes are handed to the socket. -/
theorem c3_send_without_registration :
    requestTrace (⟨true, []⟩ : TransactionsMutex Nat) 0 =
      [(.sendDatagram 0, ⟨true, []⟩)] ∧
    (txLookup (TransactionsMutex.mk true ([] : TransactionMap Nat)).map
      0).isSome = false :=
  ⟨by decide, by decide⟩

/-- C3 amended: when registration succeeds (the registry lock is healthy and
the transaction id is not already present), registration happens before the
send — at the send event the registry contains the transaction id and the
registration event occurs strictly earlier in the trace, with the same
registry contents. (When `wait_for_tx` fails, the datagram is nevertheless
sent without a registration by this request.) -/
theorem c3_registration_precedes_send_when_registered {α : Type}
    (reg : TransactionsMutex α) (tid i : Nat) (st : TransactionsMutex α)
    (hp : reg.poisoned = false) (hf : txLookup reg.map tid = none)
    (h : (requestTrace reg tid).get? i = some (.sendDatagram tid, st)) :
    (txLookup st.map tid).isSome = true ∧ 0 < i ∧
    (requestTrace reg tid).get? 0 = some (.registerTx tid, st) := by
  have hw : waitForTxRegister reg tid =
      some ⟨false, txInsert reg.map tid (.awaitingResponse none)⟩ := by
    simp [waitForTxRegister, addTransaction, hp, hf]
  unfold requestTrace at h ⊢
  rw [hw] at h ⊢
  match i with
  | 0 => simp at h
  | 1 =>
    have hst : (⟨false, txInsert reg.map tid (.awaitingResponse none)⟩ :
        TransactionsMutex α) = st := by
      simp only [List.get?] at h
      injection h with h2
      exact congrArg Prod.snd h2
    refine ⟨?_, by omega, ?_⟩
    · rw [← hst]
      simp [txLookup, txInsert]
    · rw [← hst]
      rfl
  | (n + 2) => simp [List.get?] at h

/-- C3 amended, witness at a concrete healthy empty registry. -/
theorem c3_registration_precedes_send_witness :
    (⟨false, []⟩ : TransactionsMutex Nat).poisoned = false ∧
    txLookup (⟨false, []⟩ : TransactionsMutex Nat).map 0 = none ∧
    (requestTrace (⟨false, []⟩ : TransactionsMutex Nat) 0).get? 1 =
      some (.sendDatagram 0, ⟨false, [(0, TxState.awaitingResponse none)]⟩) ∧
    ((txLookup ((⟨false, [(0, TxState.awaitingResponse none)]⟩ :
        TransactionsMutex Nat)).map 0).isSome = true ∧
      (0 : Nat) < 1 ∧
      (requestTrace (⟨false, []⟩ : TransactionsMutex Nat) 0).get? 0 =
        some (.registerTx 0, ⟨false, [(0, TxState.awaitingResponse none)]⟩)) :=
  ⟨rfl, by decide, by decide,
   c3_registration_precedes_send_when_registered (⟨false, []⟩ : TransactionsMutex Nat)
     0 1 ⟨false, [(0, TxState.awaitingResponse none)]⟩ rfl (by decide) (by decide)⟩

/-! ## KRPC envelope codec (src/packages/krpc_protocol/src/messages.rs)

The bencode wire format is modelled by the syntax tree `BVal` (the byte-level
bencode grammar is a bijection on well-formed values; serde_bencode parses
the bytes and the derived `Deserialize` impls consume the parsed tree, which
is what the decoders below embed). Byte strings are `List (Fin 256)`; byte
strings that the Rust types treat as UTF-8 text (`String` fields and the
dictionary keys, all ASCII here) are carried as `String`.

The serde semantics embedded from the derive attributes:
* `Message` is a struct with optional fields; an `Option` field absent on the
  wire is `None`, present it must be well-typed; `ro` additionally defaults
  to `false` when absent and is skipped when `false` on encode.
* `MessageType` is internally tagged by `y`; `Query` is adjacently tagged by
  `q` with content `a`; both are flattened into the top-level dictionary.
* `Response` is `#[serde(untagged)]`: decoding tries the variants in
  declaration order (`NextHop`, `GetPeers`, `OnlyID`, `Samples`) and takes
  the first that succeeds; unknown dictionary keys are ignored, required
  fields must be present and well-typed.
* `NextHop.token`/`GetPeers.token` are `Option<Vec<u8>>` *without*
  `serde_bytes`, so serde treats them as integer sequences (bencode lists of
  ints in `0..=255`), not byte strings.
* `id`/`target`/`info_hash` (`NodeID`, impl not among the sources) are
  modelled from the spec as exactly-20-byte strings; `Addr` as 6 raw bytes;
  `nodes` (`node_info` module, not among the sources) is modelled from the
  spec as a byte string whose length must be a multiple of 26, each 26-byte
  run one `NodeInfo`; `booleans` (not among the sources) is modelled from
  the spec as integer 0/1.
-/

/-- A wire byte. -/
abbrev Byte := Fin 256

/-- 20-byte node identifier as it appears on the wire. -/
def NodeID : Type := { l : List Byte // l.length = 20 }

instance : DecidableEq NodeID := fun _ _ =>
  decidable_of_iff _ (Subtype.ext_iff (p := fun l : List Byte => l.length = 20)).symm

/-- Compact peer address: 4 IPv4 bytes plus 2 port bytes. -/
def Addr : Type := { l : List Byte // l.length = 6 }

instance : DecidableEq Addr := fun _ _ =>
  decidable_of_iff _ (Subtype.ext_iff (p := fun l : List Byte => l.length = 6)).symm

/-- `(NodeID, Addr)` pair as encoded in `nodes` byte strings. -/
structure NodeInfo where
  id : NodeID
  addr : Addr
deriving DecidableEq

/-- `KRPCError(u8, String)`: a two-element bencode list `[code, message]`. -/
structure KRPCError where
  code : Fin 256
  message : String
deriving DecidableEq

/-- `Query` (tag `q`, content `a`), fields per messages.rs. -/
inductive Query where
  | Ping (id : NodeID)
  | FindNode (id : NodeID) (target : NodeID)
  | GetPeers (id : NodeID) (info_hash : NodeID)
  | AnnouncePeer (id : NodeID) (implied_port : Bool) (port : Option (Fin 65536))
      (info_hash : NodeID) (token : List Byte)
  | SampleInfoHashes (id : NodeID) (target : NodeID)
deriving DecidableEq

/-- `Response` (untagged), variants in the declaration order of messages.rs. -/
inductive Response where
  | NextHop (id : NodeID) (token : Option (List Byte)) (nodes : List NodeInfo)
  | GetPeers (id : NodeID) (token : Option (List Byte)) (peers : List Addr)
  | OnlyID (id : NodeID)
  | Samples (id : NodeID) (interval : Option (Fin 65536)) (nodes : List NodeInfo)
      (num : Option (Fin 4294967296)) (samples : List NodeID)
deriving DecidableEq

/-- `MessageType` (tag `y`). -/
inductive MessageType where
  | Query (query : Query)
  | Response (response : Response)
  | Error (error : KRPCError)
deriving DecidableEq

/-- The envelope `Message`. -/
structure Message where
  ip : Option Addr
  transaction_id : List Byte
  version : Option (List Byte)
  message_type : MessageType
  read_only : Bool
deriving DecidableEq

/-- Parsed bencode value. Byte strings carrying UTF-8 text (Rust `String`
fields, dictionary keys) are the `str` form; bencode itself has a single
string type, and the split is faithful for every value the encoder emits. -/
inductive BVal where
  | int (n : Int)
  | bytes (s : List Byte)
  | str (s : String)
  | list (items : List BVal)
  | dict (entries : List (String × BVal))

/-- A bencode dictionary body. -/
abbrev BDict := List (String × BVal)

/-- Dictionary lookup by key. -/
def bdLookup (k : String) : BDict → Option BVal
  | [] => none
  | (k', v) :: rest => if k' = k then some v else bdLookup k rest

/-- Explicit `Option` bind, so decoders unfold predictably. -/
def obind {A B : Type} : Option A → (A → Option B) → Option B
  | none, _ => none
  | some a, f => f a

lemma obind_eq_some {A B : Type} (x : Option A) (f : A → Option B) (b : B) :
    obind x f = some b ↔ ∃ a, x = some a ∧ f a = some b := by
  cases x <;> simp [obind]

lemma obind_some {A B : Type} (a : A) (f : A → Option B) :
    obind (some a) f = f a := rfl

lemma obind_none {A B : Type} (f : A → Option B) :
    obind (none : Option A) f = none := rfl

/-- serde: a byte-string value. -/
def asBytes : BVal → Option (List Byte)
  | .bytes s => some s
  | _ => none

/-- serde: a text string value. -/
def asStr : BVal → Option String
  | .str s => some s
  | _ => none

/-- serde: a list value. -/
def asList : BVal → Option (List BVal)
  | .list items => some items
  | _ => none

/-- serde: a dictionary value. -/
def asDict : BVal → Option BDict
  | .dict entries => some entries
  | _ => none

/-- serde: `u8` from a bencode integer (range-checked). -/
def asU8 : BVal → Option Byte
  | .int n => if h : 0 ≤ n ∧ n < 256 then some ⟨n.toNat, by omega⟩ else none
  | _ => none

/-- serde: `u16` from a bencode integer (range-checked). -/
def asU16 : BVal → Option (Fin 65536)
  | .int n => if h : 0 ≤ n ∧ n < 65536 then some ⟨n.toNat, by omega⟩ else none
  | _ => none

/-- serde: `u32` from a bencode integer (range-checked). -/
def asU32 : BVal → Option (Fin 4294967296)
  | .int n => if h : 0 ≤ n ∧ n < 4294967296 then some ⟨n.toNat, by omega⟩ else none
  | _ => none

/-- Modelled from the spec: `booleans::deserialize` (module not among the
sources) — bencode integers 0/1. -/
def boolDe : BVal → Option Bool
  | .int 0 => some false
  | .int 1 => some true
  | _ => none

/-- Modelled from the spec: the `NodeID` `Deserialize` impl (not among the
sources) — a byte string of exactly 20 bytes. -/
def asNodeID : BVal → Option NodeID
  | .bytes l => if h : l.length = 20 then some ⟨l, h⟩ else none
  | _ => none

/-- Modelled from the spec: the `Addr` `Deserialize` impl (not among the
sources) — 6 raw bytes. -/
def asAddr : BVal → Option Addr
  | .bytes l => if h : l.length = 6 then some ⟨l, h⟩ else none
  | _ => none

/-- Effectful map over a list, failing when any element fails (serde `Vec`). -/
def mapMO {A B : Type} (f : A → Option B) : List A → Option (List B)
  | [] => some []
  | a :: l =>
    match f a, mapMO f l with
    | some b, some bl => some (b :: bl)
    | _, _ => none

/-- serde `Option` field semantics: absent key is `None`; a present key must
be well-typed. -/
def decodeOptField {A : Type} (d : BDict) (k : String) (f : BVal → Option A) :
    Option (Option A) :=
  match bdLookup k d with
  | none => some none
  | some v => (f v).map some

/-- `Vec<u8>` without `serde_bytes`: a bencode list of integers in `0..=255`. -/
def asU8List (v : BVal) : Option (List Byte) :=
  obind (asList v) (mapMO asU8)

/-- Modelled from the spec: `node_info` encoding (module not among the
sources) — each `NodeInfo` is a flat 26-byte run, concatenated without
delimiters. -/
def encodeNodesBytes : List NodeInfo → List Byte
  | [] => []
  | n :: tl => n.id.val ++ n.addr.val ++ encodeNodesBytes tl

/-- Modelled from the spec: `node_info` decoding — split a byte string into
26-byte runs; a length that is not a multiple of 26 fails
(`MalformedNodeInfo`). The first argument is fuel (each step consumes 26
bytes, so the list length is always enough). -/
def chunkNodesF : Nat → List Byte → Option (List NodeInfo)
  | 0, l => if l.length = 0 then some [] else none
  | fuel + 1, l =>
    if l.length = 0 then some []
    else if h : 26 ≤ l.length then
      match chunkNodesF fuel (l.drop 26) with
      | none => none
      | some tl =>
        some (⟨⟨l.take 20, by rw [List.length_take]; omega⟩,
               ⟨(l.drop 20).take 6, by
                  rw [List.length_take, List.length_drop]; omega⟩⟩ :: tl)
    else none

/-- `nodes` field decoding. -/
def chunkNodes (l : List Byte) : Option (List NodeInfo) := chunkNodesF l.length l

/-! ### Response decoding (untagged, declaration order) -/

/-- Try the `NextHop { id, token, nodes }` shape on a response dictionary. -/
def decodeRespNextHop (d : BDict) : Option Response :=
  obind (bdLookup "id" d) fun idv =>
  obind (asNodeID idv) fun id =>
  obind (decodeOptField d "token" asU8List) fun token =>
  obind (bdLookup "nodes" d) fun nv =>
  obind (asBytes nv) fun nb =>
  obind (chunkNodes nb) fun nodes =>
  some (.NextHop id token nodes)

/-- Try the `GetPeers { id, token, peers }` shape (`peers` under `values`). -/
def decodeRespGetPeers (d : BDict) : Option Response :=
  obind (bdLookup "id" d) fun idv =>
  obind (asNodeID idv) fun id =>
  obind (decodeOptField d "token" asU8List) fun token =>
  obind (bdLookup "values" d) fun vv =>
  obind (asList vv) fun items =>
  obind (mapMO asAddr items) fun peers =>
  some (.GetPeers id token peers)

/-- Try the `OnlyID { id }` shape. -/
def decodeRespOnlyID (d : BDict) : Option Response :=
  obind (bdLookup "id" d) fun idv =>
  obind (asNodeID idv) fun id =>
  some (.OnlyID id)

/-- Try the `Samples { id, interval, nodes, num, samples }` shape. -/
def decodeRespSamples (d : BDict) : Option Response :=
  obind (bdLookup "id" d) fun idv =>
  obind (asNodeID idv) fun id =>
  obind (decodeOptField d "interval" asU16) fun interval =>
  obind (bdLookup "nodes" d) fun nv =>
  obind (asBytes nv) fun nb =>
  obind (chunkNodes nb) fun nodes =>
  obind (decodeOptField d "num" asU32) fun num =>
  obind (bdLookup "samples" d) fun sv =>
  obind (asList sv) fun items =>
  obind (mapMO asNodeID items) fun samples =>
  some (.Samples id interval nodes num samples)

/-- `#[serde(untagged)]`: the variants are tried in declaration order
(`NextHop`, `GetPeers`, `OnlyID`, `Samples`); the first success wins. -/
def decodeResponse (d : BDict) : Option Response :=
  match decodeRespNextHop d with
  | some r => some r
  | none =>
    match decodeRespGetPeers d with
    | some r => some r
    | none =>
      match decodeRespOnlyID d with
      | some r => some r
      | none => decodeRespSamples d

/-! ### Query and envelope decoding -/

/-- `Query` deserialization: dispatch on the `q` method name, arguments under
`a`; an unknown name fails (`UnknownQuery`). -/
def decodeQuery (d : BDict) : Option Query :=
  obind (bdLookup "q" d) fun qv =>
  obind (asStr qv) fun qname =>
  obind (bdLookup "a" d) fun av =>
  obind (asDict av) fun args =>
  if qname = "ping" then
    obind (bdLookup "id" args) fun idv =>
    obind (asNodeID idv) fun id =>
    some (.Ping id)
  else if qname = "find_node" then
    obind (bdLookup "id" args) fun idv =>
    obind (asNodeID idv) fun id =>
    obind (bdLookup "target" args) fun tv =>
    obind (asNodeID tv) fun target =>
    some (.FindNode id target)
  else if qname = "get_peers" then
    obind (bdLookup "id" args) fun idv =>
    obind (asNodeID idv) fun id =>
    obind (bdLookup "info_hash" args) fun hv =>
    obind (asNodeID hv) fun info_hash =>
    some (.GetPeers id info_hash)
  else if qname = "announce_peer" then
    obind (bdLookup "id" args) fun idv =>
    obind (asNodeID idv) fun id =>
    obind (bdLookup "implied_port" args) fun bv =>
    obind (boolDe bv) fun implied_port =>
    obind (decodeOptField args "port" asU16) fun port =>
    obind (bdLookup "info_hash" args) fun hv =>
    obind (asNodeID hv) fun info_hash =>
    obind (bdLookup "token" args) fun tv =>
    obind (asBytes tv) fun token =>
    some (.AnnouncePeer id implied_port port info_hash token)
  else if qname = "sample_infohashes" then
    obind (bdLookup "id" args) fun idv =>
    obind (asNodeID idv) fun id =>
    obind (bdLookup "target" args) fun tv =>
    obind (asNodeID tv) fun target =>
    some (.SampleInfoHashes id target)
  else none

/-- `KRPCError` deserialization: a two-element list `[u8, String]`. -/
def decodeKRPCError : BVal → Option KRPCError
  | .list [.int c, .str s] =>
    if h : 0 ≤ c ∧ c < 256 then some ⟨⟨c.toNat, by omega⟩, s⟩ else none
  | _ => none

/-- The `ro` field: absent means `false` (serde `default`), present it goes
through `booleans::deserialize`. -/
def decodeRoField (d : BDict) : Option Bool :=
  match bdLookup "ro" d with
  | none => some false
  | some rv => boolDe rv

/-- The `y`-tag dispatch of `Message` deserialization. -/
def decodeMessageType (d : BDict) (y : String) : Option MessageType :=
  if y = "q" then (decodeQuery d).map MessageType.Query
  else if y = "r" then
    obind (bdLookup "r" d) fun rv =>
    obind (asDict rv) fun rd =>
    (decodeResponse rd).map MessageType.Response
  else if y = "e" then
    obind (bdLookup "e" d) fun ev =>
    (decodeKRPCError ev).map MessageType.Error
  else none

/-- `Message` deserialization: common fields, then dispatch on the `y` tag. -/
def decodeMessage (d : BDict) : Option Message :=
  obind (bdLookup "t" d) fun tv =>
  obind (asBytes tv) fun t =>
  obind (decodeOptField d "ip" asAddr) fun ip =>
  obind (decodeOptField d "v" asBytes) fun version =>
  obind (decodeRoField d) fun ro =>
  obind (bdLookup "y" d) fun yv =>
  obind (asStr yv) fun y =>
  obind (decodeMessageType d y) fun mt =>
  some ⟨ip, t, version, mt, ro⟩

/-! ### Encoding -/

/-- An optional dictionary entry: absent `Option` fields are omitted (serde
None values are skipped in maps; the spec: "omit absent optionals"). -/
def optEntry (k : String) : Option BVal → BDict
  | none => []
  | some v => [(k, v)]

/-- Encode a `token` value (`Option<Vec<u8>>` without `serde_bytes`): a
bencode list of integers. -/
def encodeToken (t : List Byte) : BVal := .list (t.map (fun b => .int b.val))

/-- `Response` serialization (dictionary keys in bencode sorted order). -/
def encodeResponse : Response → BDict
  | .NextHop id token nodes =>
    ("id", .bytes id.val) :: ("nodes", .bytes (encodeNodesBytes nodes)) ::
      optEntry "token" (token.map encodeToken)
  | .GetPeers id token peers =>
    ("id", .bytes id.val) ::
      (optEntry "token" (token.map encodeToken) ++
        [("values", .list (peers.map (fun a => .bytes a.val)))])
  | .OnlyID id => [("id", .bytes id.val)]
  | .Samples id interval nodes num samples =>
    ("id", .bytes id.val) ::
      (optEntry "interval" (interval.map (fun n => .int n.val)) ++
        (("nodes", .bytes (encodeNodesBytes nodes)) ::
          (optEntry "num" (num.map (fun n => .int n.val)) ++
            [("samples", .list (samples.map (fun s => .bytes s.val)))])))

/-- The `q` method name of a query. -/
def queryName : Query → String
  | .Ping _ => "ping"
  | .FindNode .. => "find_node"
  | .GetPeers .. => "get_peers"
  | .AnnouncePeer .. => "announce_peer"
  | .SampleInfoHashes .. => "sample_infohashes"

/-- The arguments dictionary (`a`) of a query (keys in sorted order). -/
def encodeQueryArgs : Query → BDict
  | .Ping id => [("id", .bytes id.val)]
  | .FindNode id target => [("id", .bytes id.val), ("target", .bytes target.val)]
  | .GetPeers id info_hash =>
    [("id", .bytes id.val), ("info_hash", .bytes info_hash.val)]
  | .AnnouncePeer id implied_port port info_hash token =>
    ("id", .bytes id.val) ::
      ("implied_port", .int (if implied_port then 1 else 0)) ::
        ("info_hash", .bytes info_hash.val) ::
          (optEntry "port" (port.map (fun p => .int p.val)) ++
            [("token", .bytes token)])
  | .SampleInfoHashes id target =>
    [("id", .bytes id.val), ("target", .bytes target.val)]

/-- `Message` serialization: the envelope dictionary (the byte-level encoder
additionally sorts keys, which the key-based decoder is insensitive to). -/
def encodeMessage (m : Message) : BDict :=
  optEntry "ip" (m.ip.map (fun a => .bytes a.val)) ++
    (("t", .bytes m.transaction_id) ::
      (optEntry "v" (m.version.map (fun v => .bytes v)) ++
        ((match m.message_type with
          | .Query q =>
            [("y", .str "q"), ("q", .str (queryName q)),
             ("a", .dict (encodeQueryArgs q))]
          | .Response r => [("y", .str "r"), ("r", .dict (encodeResponse r))]
          | .Error e =>
            [("y", .str "e"),
             ("e", .list [.int e.code.val, .str e.message])]) ++
          (if m.read_only then [("ro", .int 1)] else []))))

/-- `Message::encode` at the level of parsed bencode values. -/
def Message.encode (m : Message) : BVal := .dict (encodeMessage m)

/-- `Message::decode` at the level of parsed bencode values (the payload must
be a dictionary). -/
def Message.decode : BVal → Option Message
  | .dict d => decodeMessage d
  | _ => none

/-! ### Variant discriminators -/

def Response.isNextHop : Response → Bool
  | .NextHop .. => true
  | _ => false

def Response.isGetPeers : Response → Bool
  | .GetPeers .. => true
  | _ => false

def Response.isOnlyID : Response → Bool
  | .OnlyID .. => true
  | _ => false

def Response.isSamples : Response → Bool
  | .Samples .. => true
  | _ => false

/-- Whether the envelope's body is a `Samples` response. -/
def Message.hasSamplesBody : Message → Bool
  | ⟨_, _, _, .Response r, _⟩ => r.isSamples
  | _ => false

/-! ### Round-trip of the individual field codecs -/

lemma bdLookup_append (k : String) (xs ys : BDict) :
    bdLookup k (xs ++ ys) =
      match bdLookup k xs with
      | some v => some v
      | none => bdLookup k ys := by
  induction xs with
  | nil => simp [bdLookup]
  | cons p rest ih =>
    obtain ⟨k', v⟩ := p
    by_cases hk : k' = k
    · simp [bdLookup, hk]
    · simp [bdLookup, hk, ih]

lemma asNodeID_encode (id : NodeID) : asNodeID (.bytes id.val) = some id := by
  simp only [asNodeID]
  rw [dif_pos id.property]
  rfl

lemma asAddr_encode (a : Addr) : asAddr (.bytes a.val) = some a := by
  simp only [asAddr]
  rw [dif_pos a.property]
  rfl

lemma asU8_encode (b : Byte) : asU8 (.int (b.val : Int)) = some b := by
  simp only [asU8]
  rw [dif_pos ⟨Int.natCast_nonneg _, by exact_mod_cast b.isLt⟩]
  simp [Fin.ext_iff]

lemma asU16_encode (p : Fin 65536) : asU16 (.int (p.val : Int)) = some p := by
  simp only [asU16]
  rw [dif_pos ⟨Int.natCast_nonneg _, by exact_mod_cast p.isLt⟩]
  simp [Fin.ext_iff]

lemma asU32_encode (p : Fin 4294967296) : asU32 (.int (p.val : Int)) = some p := by
  simp only [asU32]
  rw [dif_pos ⟨Int.natCast_nonneg _, by exact_mod_cast p.isLt⟩]
  simp [Fin.ext_iff]

lemma boolDe_encode (b : Bool) :
    boolDe (.int (if b then 1 else 0)) = some b := by
  cases b <;> rfl

lemma mapMO_map {A B : Type} (f : B → A) (g : A → Option B)
    (hg : ∀ b, g (f b) = some b) :
    ∀ l : List B, mapMO g (l.map f) = some l := by
  intro l
  induction l with
  | nil => rfl
  | cons b tl ih => simp [mapMO, hg, ih]

lemma asU8List_encodeToken (t : List Byte) :
    asU8List (encodeToken t) = some t := by
  simp only [asU8List, encodeToken, asList, obind]
  exact mapMO_map _ _ asU8_encode t

lemma chunkNodesF_encode :
    ∀ (ns : List NodeInfo) (fuel : Nat), (encodeNodesBytes ns).length ≤ fuel →
      chunkNodesF fuel (encodeNodesBytes ns) = some ns := by
  intro ns
  induction ns with
  | nil => intro fuel _; cases fuel <;> simp [chunkNodesF, encodeNodesBytes]
  | cons n tl ih =>
    intro fuel h
    obtain ⟨nid, naddr⟩ := n
    have hid := nid.property
    have had := naddr.property
    have hassoc : encodeNodesBytes (⟨nid, naddr⟩ :: tl) =
        (nid.val ++ naddr.val) ++ encodeNodesBytes tl := by
      simp [encodeNodesBytes, List.append_assoc]
    have hlen : (encodeNodesBytes (⟨nid, naddr⟩ :: tl)).length =
        26 + (encodeNodesBytes tl).length := by
      rw [hassoc]; simp [List.length_append, hid, had]; omega
    match fuel with
    | 0 => exfalso; omega
    | fuel + 1 =>
      rw [chunkNodesF]
      rw [if_neg (by omega), dif_pos (by omega)]
      have hdrop : (encodeNodesBytes (⟨nid, naddr⟩ :: tl)).drop 26 =
          encodeNodesBytes tl := by
        rw [hassoc]
        exact List.drop_left' (by simp [List.length_append, hid, had])
      have htake : (encodeNodesBytes (⟨nid, naddr⟩ :: tl)).take 20 = nid.val := by
        rw [hassoc, List.append_assoc]
        exact List.take_left' hid
      have htake6 : ((encodeNodesBytes (⟨nid, naddr⟩ :: tl)).drop 20).take 6 =
          naddr.val := by
        rw [hassoc, List.append_assoc, List.drop_left' hid]
        exact List.take_left' had
      rw [hdrop, ih fuel (by omega)]
      simp only [Option.some.injEq, List.cons.injEq, NodeInfo.mk.injEq]
      exact ⟨⟨Subtype.ext htake, Subtype.ext htake6⟩, trivial⟩

lemma chunkNodes_encode (ns : List NodeInfo) :
    chunkNodes (encodeNodesBytes ns) = some ns :=
  chunkNodesF_encode ns _ (le_refl _)

/-! ### Round-trip of the response codec -/

lemma decodeRespNextHop_encNextHop (id : NodeID) (token : Option (List Byte))
    (nodes : List NodeInfo) :
    decodeRespNextHop (encodeResponse (.NextHop id token nodes)) =
      some (.NextHop id token nodes) := by
  cases token <;>
    simp [decodeRespNextHop, encodeResponse, bdLookup, optEntry, obind,
      asNodeID_encode, decodeOptField, asBytes, chunkNodes_encode,
      asU8List_encodeToken]

lemma decodeRespNextHop_encGetPeers (id : NodeID) (token : Option (List Byte))
    (peers : List Addr) :
    decodeRespNextHop (encodeResponse (.GetPeers id token peers)) = none := by
  cases token <;>
    simp [decodeRespNextHop, encodeResponse, bdLookup, optEntry, obind,
      asNodeID_encode, decodeOptField, asU8List_encodeToken]

lemma decodeRespGetPeers_encGetPeers (id : NodeID) (token : Option (List Byte))
    (peers : List Addr) :
    decodeRespGetPeers (encodeResponse (.GetPeers id token peers)) =
      some (.GetPeers id token peers) := by
  cases token <;>
    simp [decodeRespGetPeers, encodeResponse, bdLookup, optEntry, obind,
      asNodeID_encode, decodeOptField, asU8List_encodeToken, asList,
      mapMO_map _ _ asAddr_encode]

lemma decodeRespNextHop_encOnlyID (id : NodeID) :
    decodeRespNextHop (encodeResponse (.OnlyID id)) = none := by
  simp [decodeRespNextHop, encodeResponse, bdLookup, obind, asNodeID_encode,
    decodeOptField]

lemma decodeRespGetPeers_encOnlyID (id : NodeID) :
    decodeRespGetPeers (encodeResponse (.OnlyID id)) = none := by
  simp [decodeRespGetPeers, encodeResponse, bdLookup, obind, asNodeID_encode,
    decodeOptField]

lemma decodeRespOnlyID_encOnlyID (id : NodeID) :
    decodeRespOnlyID (encodeResponse (.OnlyID id)) = some (.OnlyID id) := by
  simp [decodeRespOnlyID, encodeResponse, bdLookup, obind, asNodeID_encode]

lemma decodeResponse_enc (r : Response) (h : r.isSamples = false) :
    decodeResponse (encodeResponse r) = some r := by
  cases r with
  | NextHop id token nodes =>
    simp [decodeResponse, decodeRespNextHop_encNextHop]
  | GetPeers id token peers =>
    simp [decodeResponse, decodeRespNextHop_encGetPeers,
      decodeRespGetPeers_encGetPeers]
  | OnlyID id =>
    simp [decodeResponse, decodeRespNextHop_encOnlyID,
      decodeRespGetPeers_encOnlyID, decodeRespOnlyID_encOnlyID]
  | Samples id interval nodes num samples => simp [Response.isSamples] at h


/-! ### Round-trip of the envelope codec -/

/-- The `y` tag emitted for each message kind. -/
def yTag : MessageType → String
  | .Query _ => "q"
  | .Response _ => "r"
  | .Error _ => "e"

lemma encMsg_t (m : Message) :
    bdLookup "t" (encodeMessage m) = some (.bytes m.transaction_id) := by
  obtain ⟨ip, t, v, mt, ro⟩ := m
  cases ip <;> simp [encodeMessage, optEntry, bdLookup]

lemma encMsg_ip (m : Message) :
    decodeOptField (encodeMessage m) "ip" asAddr = some m.ip := by
  obtain ⟨ip, t, v, mt, ro⟩ := m
  cases ip with
  | some a =>
    simp [encodeMessage, optEntry, bdLookup, decodeOptField, asAddr_encode]
  | none =>
    cases v <;> cases mt <;> cases ro <;>
      simp [encodeMessage, optEntry, bdLookup, decodeOptField]

lemma encMsg_v (m : Message) :
    decodeOptField (encodeMessage m) "v" asBytes = some m.version := by
  obtain ⟨ip, t, v, mt, ro⟩ := m
  cases v with
  | some vb =>
    cases ip <;>
      simp [encodeMessage, optEntry, bdLookup, decodeOptField, asBytes]
  | none =>
    cases ip <;> cases mt <;> cases ro <;>
      simp [encodeMessage, optEntry, bdLookup, decodeOptField]

lemma encMsg_ro (m : Message) :
    decodeRoField (encodeMessage m) = some m.read_only := by
  obtain ⟨ip, t, v, mt, ro⟩ := m
  cases ro <;> cases ip <;> cases v <;> cases mt <;>
    simp [encodeMessage, optEntry, bdLookup, decodeRoField, boolDe]

lemma encMsg_y (m : Message) :
    bdLookup "y" (encodeMessage m) = some (.str (yTag m.message_type)) := by
  obtain ⟨ip, t, v, mt, ro⟩ := m
  cases ip <;> cases v <;> cases mt <;>
    simp [encodeMessage, optEntry, bdLookup, yTag]

lemma encMsg_q (m : Message) (q : Query) (hmt : m.message_type = .Query q) :
    bdLookup "q" (encodeMessage m) = some (.str (queryName q)) ∧
    bdLookup "a" (encodeMessage m) = some (.dict (encodeQueryArgs q)) := by
  obtain ⟨ip, t, v, mt, ro⟩ := m
  cases hmt
  cases ip <;> cases v <;> constructor <;>
    simp [encodeMessage, optEntry, bdLookup]

lemma encMsg_r (m : Message) (r : Response) (hmt : m.message_type = .Response r) :
    bdLookup "r" (encodeMessage m) = some (.dict (encodeResponse r)) := by
  obtain ⟨ip, t, v, mt, ro⟩ := m
  cases hmt
  cases ip <;> cases v <;> simp [encodeMessage, optEntry, bdLookup]

lemma encMsg_e (m : Message) (err : KRPCError)
    (hmt : m.message_type = .Error err) :
    bdLookup "e" (encodeMessage m) =
      some (.list [.int (err.code.val : Int), .str err.message]) := by
  obtain ⟨ip, t, v, mt, ro⟩ := m
  cases hmt
  cases ip <;> cases v <;> simp [encodeMessage, optEntry, bdLookup]

lemma decodeKRPCError_enc (e : KRPCError) :
    decodeKRPCError (.list [.int (e.code.val : Int), .str e.message]) = some e := by
  simp only [decodeKRPCError]
  rw [dif_pos ⟨Int.natCast_nonneg _, by exact_mod_cast e.code.isLt⟩]
  simp [KRPCError.mk.injEq, Fin.ext_iff]

lemma decodeQuery_of_lookup (d : BDict) (q : Query)
    (hq : bdLookup "q" d = some (.str (queryName q)))
    (ha : bdLookup "a" d = some (.dict (encodeQueryArgs q))) :
    decodeQuery d = some q := by
  cases q with
  | Ping id =>
    simp only [queryName] at hq ha
    simp only [decodeQuery, hq, ha, obind_some, asStr, asDict,
      String.reduceEq, reduceIte, encodeQueryArgs, optEntry, bdLookup,
      asNodeID_encode]
  | FindNode id target =>
    simp only [queryName] at hq ha
    simp only [decodeQuery, hq, ha, obind_some, asStr, asDict,
      String.reduceEq, reduceIte, encodeQueryArgs, optEntry, bdLookup,
      asNodeID_encode]
  | GetPeers id info_hash =>
    simp only [queryName] at hq ha
    simp only [decodeQuery, hq, ha, obind_some, asStr, asDict,
      String.reduceEq, reduceIte, encodeQueryArgs, optEntry, bdLookup,
      asNodeID_encode]
  | AnnouncePeer id implied_port port info_hash token =>
    simp only [queryName] at hq ha
    cases port <;>
      simp only [decodeQuery, hq, ha, obind_some, asStr, asDict,
        String.reduceEq, reduceIte, encodeQueryArgs, optEntry, bdLookup,
        Option.map_some', Option.map_none', List.cons_append, List.nil_append,
        asNodeID_encode, decodeOptField, boolDe_encode, asU16_encode, asBytes]
  | SampleInfoHashes id target =>
    simp only [queryName] at hq ha
    simp only [decodeQuery, hq, ha, obind_some, asStr, asDict,
      String.reduceEq, reduceIte, encodeQueryArgs, optEntry, bdLookup,
      asNodeID_encode]

/-- C4 amended: for every envelope whose body is not a `Samples` response,
decoding the encoding yields the envelope back. (A `Samples` body breaks the
round trip — see the counterexample — because its payload also satisfies the
`NextHop` shape, which untagged deserialization tries first.) -/
theorem c4_roundtrip (e : Message) (h : e.hasSamplesBody = false) :
    Message.decode (Message.encode e) = some e := by
  obtain ⟨ip, t, v, mt, ro⟩ := e
  show decodeMessage (encodeMessage ⟨ip, t, v, mt, ro⟩) = _
  unfold decodeMessage
  simp only [encMsg_t ⟨ip, t, v, mt, ro⟩, encMsg_ip ⟨ip, t, v, mt, ro⟩,
    encMsg_v ⟨ip, t, v, mt, ro⟩, encMsg_ro ⟨ip, t, v, mt, ro⟩,
    encMsg_y ⟨ip, t, v, mt, ro⟩, obind_some, asBytes, asStr]
  cases mt with
  | Query q =>
    obtain ⟨hq, ha⟩ := encMsg_q ⟨ip, t, v, .Query q, ro⟩ q rfl
    simp only [yTag, decodeMessageType, String.reduceEq, reduceIte,
      decodeQuery_of_lookup _ q hq ha, Option.map_some', obind_some]
  | Response r =>
    have hr : r.isSamples = false := by
      simpa [Message.hasSamplesBody] using h
    simp only [yTag, decodeMessageType, String.reduceEq, reduceIte,
      encMsg_r ⟨ip, t, v, .Response r, ro⟩ r rfl, obind_some, asDict,
      decodeResponse_enc r hr, Option.map_some']
  | Error err =>
    simp only [yTag, decodeMessageType, String.reduceEq, reduceIte,
      encMsg_e ⟨ip, t, v, .Error err, ro⟩ err rfl, obind_some,
      decodeKRPCError_enc, Option.map_some']

/-! ### Field-presence predicates and discrimination facts for responses -/

/-- The key is present in the dictionary. -/
def hasKey (d : BDict) (k : String) : Bool := (bdLookup k d).isSome

/-- A `nodes` field is present and decodes as node infos. -/
def wfNodesField (d : BDict) : Bool :=
  match bdLookup "nodes" d with
  | some v => (obind (asBytes v) chunkNodes).isSome
  | none => false

/-- A `values` field is present and decodes as a peers list. -/
def wfValuesField (d : BDict) : Bool :=
  match bdLookup "values" d with
  | some v => (obind (asList v) (mapMO asAddr)).isSome
  | none => false

/-- The `token` field, when present, is well-typed for the `token` fields of
`NextHop`/`GetPeers` (a list of integers in `0..=255`). -/
def wfTokenField (d : BDict) : Bool :=
  match bdLookup "token" d with
  | none => true
  | some v => (asU8List v).isSome

/-- The `values` field is present and is a non-empty bencode list. -/
def valuesNonEmpty (d : BDict) : Bool :=
  match bdLookup "values" d with
  | some (.list (_ :: _)) => true
  | _ => false

lemma bdLookup_eq_none_of_hasKey_false (d : BDict) (k : String)
    (h : hasKey d k = false) : bdLookup k d = none := by
  unfold hasKey at h
  cases hl : bdLookup k d
  · rfl
  · rw [hl] at h; cases h

lemma Response.isSamples_eq_false_of_isNextHop (r : Response)
    (h : r.isNextHop = true) : r.isSamples = false := by
  cases r <;> first | rfl | exact absurd h (by simp [Response.isNextHop])

lemma Response.isSamples_eq_false_of_isGetPeers (r : Response)
    (h : r.isGetPeers = true) : r.isSamples = false := by
  cases r <;> first | rfl | exact absurd h (by simp [Response.isGetPeers])

lemma Response.isSamples_eq_false_of_isOnlyID (r : Response)
    (h : r.isOnlyID = true) : r.isSamples = false := by
  cases r <;> first | rfl | exact absurd h (by simp [Response.isOnlyID])

lemma decodeRespNextHop_shape (d : BDict) (r : Response)
    (h : decodeRespNextHop d = some r) : r.isNextHop = true := by
  simp only [decodeRespNextHop, obind_eq_some, Option.some.injEq] at h
  obtain ⟨idv, h1, id, h2, token, h3, nv, h4, nb, h5, nodes, h6, h7⟩ := h
  rw [← h7]
  rfl

lemma decodeRespGetPeers_shape (d : BDict) (r : Response)
    (h : decodeRespGetPeers d = some r) : r.isGetPeers = true := by
  simp only [decodeRespGetPeers, obind_eq_some, Option.some.injEq] at h
  obtain ⟨idv, h1, id, h2, token, h3, vv, h4, items, h5, peers, h6, h7⟩ := h
  rw [← h7]
  rfl

lemma decodeRespOnlyID_shape (d : BDict) (r : Response)
    (h : decodeRespOnlyID d = some r) : r.isOnlyID = true := by
  simp only [decodeRespOnlyID, obind_eq_some, Option.some.injEq] at h
  obtain ⟨idv, h1, id, h2, h3⟩ := h
  rw [← h3]
  rfl

lemma decodeRespNextHop_id (d : BDict) (r : Response)
    (h : decodeRespNextHop d = some r) :
    ∃ idv id, bdLookup "id" d = some idv ∧ asNodeID idv = some id := by
  simp only [decodeRespNextHop, obind_eq_some, Option.some.injEq] at h
  obtain ⟨idv, h1, id, h2, _⟩ := h
  exact ⟨idv, id, h1, h2⟩

lemma decodeRespGetPeers_id (d : BDict) (r : Response)
    (h : decodeRespGetPeers d = some r) :
    ∃ idv id, bdLookup "id" d = some idv ∧ asNodeID idv = some id := by
  simp only [decodeRespGetPeers, obind_eq_some, Option.some.injEq] at h
  obtain ⟨idv, h1, id, h2, _⟩ := h
  exact ⟨idv, id, h1, h2⟩

lemma decodeRespOnlyID_id (d : BDict) (r : Response)
    (h : decodeRespOnlyID d = some r) :
    ∃ idv id, bdLookup "id" d = some idv ∧ asNodeID idv = some id := by
  simp only [decodeRespOnlyID, obind_eq_some, Option.some.injEq] at h
  obtain ⟨idv, h1, id, h2, _⟩ := h
  exact ⟨idv, id, h1, h2⟩

lemma decodeRespSamples_id (d : BDict) (r : Response)
    (h : decodeRespSamples d = some r) :
    ∃ idv id, bdLookup "id" d = some idv ∧ asNodeID idv = some id := by
  simp only [decodeRespSamples, obind_eq_some, Option.some.injEq] at h
  obtain ⟨idv, h1, id, h2, _⟩ := h
  exact ⟨idv, id, h1, h2⟩

lemma decodeRespNextHop_none_of_no_nodes (d : BDict)
    (h : bdLookup "nodes" d = none) : decodeRespNextHop d = none := by
  cases hx : decodeRespNextHop d with
  | none => rfl
  | some r =>
    exfalso
    simp only [decodeRespNextHop, obind_eq_some, Option.some.injEq] at hx
    obtain ⟨idv, h1, id, h2, token, h3, nv, h4, _⟩ := hx
    rw [h] at h4
    cases h4

lemma decodeRespGetPeers_none_of_no_values (d : BDict)
    (h : bdLookup "values" d = none) : decodeRespGetPeers d = none := by
  cases hx : decodeRespGetPeers d with
  | none => rfl
  | some r =>
    exfalso
    simp only [decodeRespGetPeers, obind_eq_some, Option.some.injEq] at hx
    obtain ⟨idv, h1, id, h2, token, h3, vv, h4, _⟩ := hx
    rw [h] at h4
    cases h4

lemma decodeRespSamples_none_of_onlyID_none (d : BDict)
    (h : decodeRespOnlyID d = none) : decodeRespSamples d = none := by
  cases hs : decodeRespSamples d with
  | none => rfl
  | some s =>
    exfalso
    obtain ⟨idv, id, h1, h2⟩ := decodeRespSamples_id d s hs
    simp only [decodeRespOnlyID, h1, obind_some, h2] at h
    cases h

lemma wfTokenField_decodeOpt (d : BDict) (h : wfTokenField d = true) :
    ∃ tk, decodeOptField d "token" asU8List = some tk := by
  unfold wfTokenField at h
  cases hl : bdLookup "token" d with
  | none => exact ⟨none, by simp [decodeOptField, hl]⟩
  | some v =>
    rw [hl] at h
    obtain ⟨t, ht⟩ := Option.isSome_iff_exists.mp h
    exact ⟨some t, by simp [decodeOptField, hl, ht]⟩

lemma wfNodesField_decompose (d : BDict) (h : wfNodesField d = true) :
    ∃ nv nb nodes, bdLookup "nodes" d = some nv ∧ asBytes nv = some nb ∧
      chunkNodes nb = some nodes := by
  unfold wfNodesField at h
  cases hl : bdLookup "nodes" d with
  | none => rw [hl] at h; cases h
  | some v =>
    rw [hl] at h
    obtain ⟨nodes, hn⟩ := Option.isSome_iff_exists.mp h
    rw [obind_eq_some] at hn
    obtain ⟨nb, h1, h2⟩ := hn
    exact ⟨v, nb, nodes, rfl, h1, h2⟩

lemma wfValuesField_decompose (d : BDict) (h : wfValuesField d = true) :
    ∃ vv items peers, bdLookup "values" d = some vv ∧ asList vv = some items ∧
      mapMO asAddr items = some peers := by
  unfold wfValuesField at h
  cases hl : bdLookup "values" d with
  | none => rw [hl] at h; cases h
  | some v =>
    rw [hl] at h
    obtain ⟨peers, hp⟩ := Option.isSome_iff_exists.mp h
    rw [obind_eq_some] at hp
    obtain ⟨items, h1, h2⟩ := hp
    exact ⟨v, items, peers, rfl, h1, h2⟩

lemma decodeRespNextHop_success (d : BDict) (idv : BVal) (id : NodeID)
    (h1 : bdLookup "id" d = some idv) (h2 : asNodeID idv = some id)
    (ht : wfTokenField d = true) (hn : wfNodesField d = true) :
    ∃ token nodes, decodeRespNextHop d = some (.NextHop id token nodes) := by
  obtain ⟨tk, htk⟩ := wfTokenField_decodeOpt d ht
  obtain ⟨nv, nb, nodes, h3, h4, h5⟩ := wfNodesField_decompose d hn
  exact ⟨tk, nodes, by
    simp only [decodeRespNextHop, h1, h2, htk, h3, h4, h5, obind_some]⟩

lemma decodeRespGetPeers_success (d : BDict) (idv : BVal) (id : NodeID)
    (h1 : bdLookup "id" d = some idv) (h2 : asNodeID idv = some id)
    (ht : wfTokenField d = true) (hv : wfValuesField d = true) :
    ∃ token peers, decodeRespGetPeers d = some (.GetPeers id token peers) := by
  obtain ⟨tk, htk⟩ := wfTokenField_decodeOpt d ht
  obtain ⟨vv, items, peers, h3, h4, h5⟩ := wfValuesField_decompose d hv
  exact ⟨tk, peers, by
    simp only [decodeRespGetPeers, h1, h2, htk, h3, h4, h5, obind_some]⟩

lemma decodeResponse_id (d : BDict) (r : Response)
    (h : decodeResponse d = some r) :
    ∃ idv id, bdLookup "id" d = some idv ∧ asNodeID idv = some id := by
  unfold decodeResponse at h
  cases h1 : decodeRespNextHop d with
  | some r' => rw [h1] at h; exact decodeRespNextHop_id d r' h1
  | none =>
    rw [h1] at h
    cases h2 : decodeRespGetPeers d with
    | some r' => rw [h2] at h; exact decodeRespGetPeers_id d r' h2
    | none =>
      rw [h2] at h
      cases h3 : decodeRespOnlyID d with
      | some r' => rw [h3] at h; exact decodeRespOnlyID_id d r' h3
      | none => rw [h3] at h; exact decodeRespSamples_id d r h

lemma decodeResponse_never_samples (d : BDict) (r : Response)
    (h : decodeResponse d = some r) : r.isSamples = false := by
  unfold decodeResponse at h
  cases h1 : decodeRespNextHop d with
  | some r' =>
    rw [h1] at h
    cases h
    exact Response.isSamples_eq_false_of_isNextHop r (decodeRespNextHop_shape d r h1)
  | none =>
    rw [h1] at h
    cases h2 : decodeRespGetPeers d with
    | some r' =>
      rw [h2] at h
      cases h
      exact Response.isSamples_eq_false_of_isGetPeers r (decodeRespGetPeers_shape d r h2)
    | none =>
      rw [h2] at h
      cases h3 : decodeRespOnlyID d with
      | some r' =>
        rw [h3] at h
        cases h
        exact Response.isSamples_eq_false_of_isOnlyID r (decodeRespOnlyID_shape d r h3)
      | none =>
        rw [h3] at h
        rw [decodeRespSamples_none_of_onlyID_none d h3] at h
        cases h

lemma decodeResponse_eq_nextHop (d : BDict)
    (h : (decodeRespNextHop d).isSome = true) :
    decodeResponse d = decodeRespNextHop d := by
  unfold decodeResponse
  cases h1 : decodeRespNextHop d with
  | some r => rfl
  | none => rw [h1] at h; cases h


/-! ### Claim theorems for the codec -/

/-- C1 amended: the decoded variant is determined by trying the untagged
variants in declaration order, so `nodes` wins over `values`: if a
well-formed `nodes` field is present (and `token`, when present, is
well-typed) the result is NextHop even when `values` is present; `values`
(well-formed, with well-typed `token`) yields GetPeers only when no `nodes`
key is present; with neither key the result is OnlyID; Samples never
results. -/
theorem c1_discrimination (d : BDict) (r : Response)
    (h : decodeResponse d = some r) :
    r.isSamples = false ∧
    (wfNodesField d = true → wfTokenField d = true → r.isNextHop = true) ∧
    (hasKey d "nodes" = false → wfValuesField d = true → wfTokenField d = true →
      r.isGetPeers = true) ∧
    (hasKey d "nodes" = false → hasKey d "values" = false →
      r.isOnlyID = true) := by
  refine ⟨decodeResponse_never_samples d r h, ?_, ?_, ?_⟩
  · intro hn ht
    obtain ⟨idv, id, h1, h2⟩ := decodeResponse_id d r h
    obtain ⟨token, nodes, hnh⟩ := decodeRespNextHop_success d idv id h1 h2 ht hn
    have heq := decodeResponse_eq_nextHop d (by rw [hnh]; rfl)
    rw [heq, hnh] at h
    cases h
    rfl
  · intro hnod hv ht
    have hnone : decodeRespNextHop d = none :=
      decodeRespNextHop_none_of_no_nodes d
        (bdLookup_eq_none_of_hasKey_false d _ hnod)
    obtain ⟨idv, id, h1, h2⟩ := decodeResponse_id d r h
    obtain ⟨token, peers, hgp⟩ := decodeRespGetPeers_success d idv id h1 h2 ht hv
    unfold decodeResponse at h
    rw [hnone, hgp] at h
    cases h
    rfl
  · intro hnod hval
    have hn : decodeRespNextHop d = none :=
      decodeRespNextHop_none_of_no_nodes d
        (bdLookup_eq_none_of_hasKey_false d _ hnod)
    have hg : decodeRespGetPeers d = none :=
      decodeRespGetPeers_none_of_no_values d
        (bdLookup_eq_none_of_hasKey_false d _ hval)
    obtain ⟨idv, id, h1, h2⟩ := decodeResponse_id d r h
    have hoid : decodeRespOnlyID d = some (.OnlyID id) := by
      simp only [decodeRespOnlyID, h1, h2, obind_some]
    unfold decodeResponse at h
    rw [hn, hg, hoid] at h
    cases h
    rfl

/-- Concrete node id, address and node-info for the counterexamples. -/
def idA : NodeID := ⟨List.replicate 20 (65 : Byte), by decide⟩

def addrA : Addr := ⟨List.replicate 6 (1 : Byte), by decide⟩

def niA : NodeInfo := ⟨idA, addrA⟩

/-- The response body of the C1 counterexample: a valid (empty) `nodes` byte
string next to a non-empty `values` list — the shape older peers send. -/
def c1dict : BDict :=
  [("id", .bytes idA.val), ("nodes", .bytes []),
   ("values", .list [.bytes addrA.val])]

/-- C1 counterexample: a payload whose response body carries a non-empty
(and well-formed) `values` list decodes as `NextHop`, not `GetPeers`,
because the untagged `NextHop` variant is tried first and the `nodes` field
satisfies it. -/
theorem c1_values_do_not_win :
    decodeResponse c1dict = some (.NextHop idA none []) ∧
    valuesNonEmpty c1dict = true ∧
    wfValuesField c1dict = true ∧
    (Response.NextHop idA none []).isGetPeers = false :=
  ⟨by decide, by decide, by decide, by decide⟩

/-- Response dictionary for the C1 witness: well-formed `nodes` and an
integer-list `token`. -/
def c1wdict : BDict :=
  [("id", .bytes idA.val), ("nodes", .bytes (encodeNodesBytes [niA])),
   ("token", .list [.int 7])]

/-- C1 amended, witness at a concrete dictionary. -/
theorem c1_discrimination_witness :
    decodeResponse c1wdict = some (.NextHop idA (some [7]) [niA]) ∧
    (Response.NextHop idA (some [7]) [niA]).isNextHop = true :=
  ⟨by decide,
   (c1_discrimination c1wdict (.NextHop idA (some [7]) [niA])
     (by decide)).2.1 (by decide) (by decide)⟩

/-- C9 amended: decoding never yields `Samples`; and a payload whose body has
a well-formed `nodes` field alongside a `samples` or `values` field decodes
as `NextHop` — provided the `token` field, when present, is well-typed for
`NextHop` (a list of integers; the `token` fields lack `serde_bytes`, so a
byte-string token makes the `NextHop` and `GetPeers` shapes fail). -/
theorem c9_untagged_order (d : BDict) (r : Response)
    (h : decodeResponse d = some r) :
    r.isSamples = false ∧
    ((hasKey d "samples" = true ∨ hasKey d "values" = true) →
      wfNodesField d = true → wfTokenField d = true → r.isNextHop = true) := by
  refine ⟨decodeResponse_never_samples d r h, ?_⟩
  intro _ hn ht
  obtain ⟨idv, id, h1, h2⟩ := decodeResponse_id d r h
  obtain ⟨token, nodes, hnh⟩ := decodeRespNextHop_success d idv id h1 h2 ht hn
  have heq := decodeResponse_eq_nextHop d (by rw [hnh]; rfl)
  rw [heq, hnh] at h
  cases h
  rfl

/-- The response body of the C9 counterexample: valid `nodes`, a `values`
list, and a `token` sent as a byte string (the standard wire form). -/
def c9dict : BDict :=
  [("id", .bytes idA.val), ("nodes", .bytes (encodeNodesBytes [niA])),
   ("token", .bytes [1, 2]), ("values", .list [.bytes addrA.val])]

/-- C9 counterexample: with a byte-string `token` (which the claim's
"unknown fields are ignored" description does not cover — `token` is a known
field of the first two variants and must be an integer list), a body with
decodable `nodes` alongside `values` decodes as `OnlyID`, not `NextHop`. -/
theorem c9_bytes_token_breaks_nextHop :
    decodeResponse c9dict = some (.OnlyID idA) ∧
    wfNodesField c9dict = true ∧
    hasKey c9dict "values" = true ∧
    wfTokenField c9dict = false ∧
    (Response.OnlyID idA).isNextHop = false :=
  ⟨by decide, by decide, by decide, by decide, by decide⟩

/-- Response dictionary for the C9 witness: well-formed `nodes` alongside a
`samples` field, no token. -/
def c9wdict : BDict :=
  [("id", .bytes idA.val), ("nodes", .bytes []), ("samples", .list [])]

/-- C9 amended, witness at a concrete dictionary. -/
theorem c9_untagged_order_witness :
    decodeResponse c9wdict = some (.NextHop idA none []) ∧
    (Response.NextHop idA none []).isNextHop = true :=
  ⟨by decide,
   (c9_untagged_order c9wdict (.NextHop idA none [])
     (by decide)).2 (Or.inl (by decide)) (by decide) (by decide)⟩

/-- A `Samples` response envelope. -/
def msgSamples : Message :=
  ⟨none, [0, 0, 0, 1], none, .Response (.Samples idA none [] none []), false⟩

/-- What its encoding actually decodes to. -/
def msgSamplesDecoded : Message :=
  ⟨none, [0, 0, 0, 1], none, .Response (.NextHop idA none []), false⟩

/-- C4 counterexample: the `Samples` envelope does not round-trip — its
encoding decodes to a `NextHop` body (the `Samples` payload also satisfies
the `NextHop` shape, which untagged deserialization tries first). -/
theorem c4_samples_roundtrip_fails :
    Message.decode (Message.encode msgSamples) = some msgSamplesDecoded ∧
    msgSamplesDecoded ≠ msgSamples ∧
    Message.decode (Message.encode msgSamples) ≠ some msgSamples :=
  ⟨by decide, by decide, by decide⟩

/-- A ping query envelope. -/
def msgPing : Message := ⟨none, [0, 0, 0, 1], none, .Query (.Ping idA), false⟩

/-- C4 amended, witness: the ping envelope round-trips. -/
theorem c4_roundtrip_witness :
    msgPing.hasSamplesBody = false ∧
    Message.decode (Message.encode msgPing) = some msgPing :=
  ⟨by decide, c4_roundtrip msgPing (by decide)⟩

end DhtCrawler
